import Mathlib

/-!
Verification development for `catgit` (src/catgit/catgit.py, v0.11.4):
a shallow embedding of the traversal-and-filtering engine
(`is_text_file`, `is_catgit_ignored`, `process_file`,
`concatenate_and_generate_tree`/`traverse`, the include-only gate of
`main`) together with theorems checking the specification's claims.

Modelling conventions:
* File bytes are `Nat`s; the first up-to-1024 bytes a file yields when
  sniffed are carried as `FileData.sample` (`none` models an unreadable
  file, mirroring the `except` branch of `is_text_file`).
* Python float arithmetic in `is_text_file` is embedded over `ℚ`.  For
  samples of length ≤ 1024 the exact rational comparison agrees with the
  float computation: the rational value `100 * (1 - n/len)` is either
  exactly 70 or at least `10/len ≥ 10/1024` away from 70, far outside
  double-precision rounding error of the three-operation formula.
* Compiled regular expressions (`re.compile(fnmatch.translate(...))`)
  are embedded as their match functions `String → Bool`;
  `fnmatch.translate` never raises, so pattern compilation is total.
* `None` pattern lists are embedded as `[]`: in the source both are
  falsy in `if compiled_catgit_patterns and ...`, and
  `is_catgit_ignored` with an empty list returns `False`.
* The recursive `traverse` closure is embedded with an explicit `fuel`
  argument bounding recursion depth; `fuel` is consumed only when
  descending into a subdirectory, and every claim is proved for *all*
  fuel values, hence in particular for any fuel exceeding the height of
  the actual directory tree (the real program's behaviour).
-/

namespace Catgit

/-! ### Text/binary classifier (`is_text_file`, lines 233-250) -/

/-- The byte set `{7, 8, 9, 10, 12, 13, 27} | set(range(0x20, 0x7f))`
from `is_text_file`. -/
def textChars : List Nat := [7, 8, 9, 10, 12, 13, 27] ++ List.range' 0x20 (0x7f - 0x20)

/-- Source: `nontext_char_count = sum(1 for byte in content if byte not in text_chars)`. -/
def nontextCharCount (content : List Nat) : Nat :=
  content.countP (fun b => !(textChars.contains b))

/-- Core of `is_text_file` applied to the bytes actually read
(`content = f.read(1024)`): empty content is text, otherwise
`percentage_of_text_chars = 100 * (1 - nontext_char_count / len(content))`
and the file is text iff that percentage is strictly greater than 70. -/
def isTextSample (content : List Nat) : Bool :=
  if content.isEmpty then
    true
  else
    decide ((100 : ℚ) * (1 - (nontextCharCount content : ℚ) / (content.length : ℚ)) > 70)

/-- The on-disk data of one file, as seen by the engine.  `sample` is
the result of `open(path,'rb').read(1024)` (`none` when the open/read
raises, in which case `is_text_file` returns `False`); `content` is the
text read by `process_file` (with `errors='ignore'`); `size` is
`os.stat(...).st_size`; `readError` models an exception raised inside
`process_file`'s `try` block (its message). -/
structure FileData where
  sample : Option (List Nat)
  content : String
  size : Nat
  readError : Option String
deriving Repr, DecidableEq

/-- Embeds `is_text_file` on a file: sniff the sample if readable, otherwise
(read error) return `False`. -/
def isTextFile (d : FileData) : Bool :=
  match d.sample with
  | none => false
  | some content => isTextSample content

/-! ### Secondary ignore list (`is_catgit_ignored`, lines 222-231) -/

/-- Embeds `is_catgit_ignored(relative_path, compiled_patterns)`.

`isdirCwd` embeds `os.path.isdir`: note the source queries
`os.path.isdir(relative_path)` on the *bare relative path*, which the
operating system resolves against the process's current working
directory (not against the traversal root). -/
def isCatgitIgnored (isdirCwd : String → Bool) (relativePath : String)
    (compiledPatterns : List (String → Bool)) : Bool :=
  let normalizedPath := if isdirCwd relativePath then relativePath ++ "/" else relativePath
  compiledPatterns.any (fun p => p normalizedPath)

/-! ### Filesystem model -/

/-- A filesystem node under the traversal root: a file carries its
`FileData`, a directory carries its children (the entries `os.listdir`
would report, in unspecified order; `traverse` sorts them). -/
inductive FS where
  | file (name : String) (data : FileData)
  | dir (name : String) (children : List FS)
deriving Repr

def FS.name : FS → String
  | .file n _ => n
  | .dir n _ => n

/-- Embeds `os.path.isdir(os.path.join(current_path, entry))`: the true kind
of the entry (the full path resolves to the node itself). -/
def FS.isDir : FS → Bool
  | .file _ _ => false
  | .dir _ _ => true

/-! ### Sorting (`sorted(os.listdir(current_path))`)

Python compares strings lexicographically by Unicode code point.  The
embedding compares `String.data` through `Char.toNat` with a `Bool`
comparison that the kernel can evaluate. -/

/-- Comparison `x ≤ y` on code-point lists, Python string comparison. -/
def strLeb : List Char → List Char → Bool
  | [], _ => true
  | _ :: _, [] => false
  | a :: as, b :: bs =>
    if a.toNat < b.toNat then true
    else if b.toNat < a.toNat then false
    else strLeb as bs

/-- Name order on directory entries. -/
def nameLe (a b : FS) : Prop := strLeb a.name.data b.name.data = true

instance : DecidableRel nameLe := fun a b =>
  inferInstanceAs (Decidable (strLeb a.name.data b.name.data = true))

/-- Embeds `sorted(...)` over directory entries.  (Real directory listings
have pairwise distinct names, so tie-breaking order is immaterial.) -/
def sortByName (l : List FS) : List FS := List.insertionSort nameLe l

/-! ### The traversal (`concatenate_and_generate_tree` / `traverse`, lines 298-385) -/

/-- One line appended to `tree_output`, kept structured; `renderLine`
reproduces the exact f-string of each append site. -/
inductive TreeLine where
  | dirLine (pre conn name : String)
  | fileLine (pre conn name : String)
  | binaryLine (pre conn name : String)
  | gitIgnoredDirLine (pre conn name : String)
  | gitIgnoredFileLine (pre conn name : String)
  | catgitIgnoredDirLine (pre conn name : String)
  | catgitIgnoredFileLine (pre conn name : String)
deriving Repr, DecidableEq

/-- The exact strings `traverse` appends to `tree_output`. -/
def renderLine : TreeLine → String
  | .dirLine pre conn n => pre ++ conn ++ " " ++ n ++ "/\n"
  | .fileLine pre conn n => pre ++ conn ++ " " ++ n ++ "\n"
  | .binaryLine pre conn n => pre ++ conn ++ " " ++ n ++ " [Binary/Non-text]\n"
  | .gitIgnoredDirLine pre conn n => pre ++ conn ++ " " ++ n ++ "/ # (Git-ignored)\n"
  | .gitIgnoredFileLine pre conn n => pre ++ conn ++ " " ++ n ++ " # (Git-ignored)\n"
  | .catgitIgnoredDirLine pre conn n => pre ++ conn ++ " " ++ n ++ "/ # (catgit-ignored)\n"
  | .catgitIgnoredFileLine pre conn n => pre ++ conn ++ " " ++ n ++ " # (catgit-ignored)\n"

/-- Output `tree_output` is the concatenation of the appended lines. -/
def treeText (lines : List TreeLine) : String := String.join (lines.map renderLine)

/-- One `executor.submit(process_file, full_path, extra_delimiter)`
call: the submitted full path together with the data the worker will
read; `name` records the directory entry submitted (the basename of
`fullPath`). -/
structure Submission where
  fullPath : String
  name : String
  data : FileData
deriving Repr, DecidableEq

/-- The configuration reaching `concatenate_and_generate_tree` (all of
its parameters except the root path).  `includeTreeView`,
`markupCatgitignoredFiles` and `hideNonexistentGitignored` are accepted
by the source function but never read inside it; they are kept here for
parity.  `isdirCwd` is the ambient `os.path.isdir` on a bare relative
path (resolved against the process working directory), used only by
`is_catgit_ignored`. -/
structure Config where
  ignoredGitFiles : List String
  catgitPatterns : List (String → Bool)
  includeTreeView : Bool
  markupCatgitignoredFiles : Bool
  displayCatgitignoredFiles : Bool
  alwaysExcludeDirs : List String
  ignoreGitignored : Bool
  displayGitignoredFiles : Bool
  includeOnly : Bool
  includedFiles : List String
  includedDirs : List String
  hideNonexistentGitignored : Bool
  extraDelimiter : String
  isdirCwd : String → Bool

/-- Source: `files_to_skip = {'.gitignore', '.catgitignore', '.catgitinclude'}`. -/
def filesToSkip : List String := [".gitignore", ".catgitignore", ".catgitinclude"]

/-- Embeds `os.path.normpath(os.path.join(relative_path, entry) if relative_path else entry)`
(entry names contain no separators or dot components, so `normpath` is
the identity on the join). -/
def joinRel (rel name : String) : String := if rel = "" then name else rel ++ "/" ++ name

/-- The filter on `entries`:
`not (os.path.isdir(os.path.join(current_path, e)) and e in always_exclude_dirs)`. -/
def keepEntry (excl : List String) (e : FS) : Bool := !(e.isDir && excl.contains e.name)

/-- The body of `traverse`'s `for` loop for one entry.  `recurse` is
the recursive call into a subdirectory (supplied by
`traverseChildren`). -/
def traverseEntry (recurse : String → String → String → List FS → List TreeLine × List Submission)
    (cfg : Config) (curPath pre rel : String) (total idx : Nat) (e : FS) :
    List TreeLine × List Submission :=
  let fullPath := curPath ++ "/" ++ e.name
  let erel := joinRel rel e.name
  let isLast := idx == total - 1
  let conn := if isLast then "└──" else "├──"
  if cfg.includeOnly && !(cfg.includedFiles.contains erel) && !(cfg.includedDirs.contains erel) then
    ([], [])
  else if cfg.ignoreGitignored && cfg.ignoredGitFiles.contains erel then
    (if cfg.displayGitignoredFiles then
      [if e.isDir then TreeLine.gitIgnoredDirLine pre conn e.name
       else TreeLine.gitIgnoredFileLine pre conn e.name]
     else [], [])
  else if !cfg.catgitPatterns.isEmpty && isCatgitIgnored cfg.isdirCwd erel cfg.catgitPatterns then
    (if cfg.displayCatgitignoredFiles then
      [if e.isDir then TreeLine.catgitIgnoredDirLine pre conn e.name
       else TreeLine.catgitIgnoredFileLine pre conn e.name]
     else [], [])
  else
    match e with
    | .dir name children =>
      let sub := recurse fullPath (pre ++ if isLast then "    " else "│   ") erel children
      (TreeLine.dirLine pre conn name :: sub.1, sub.2)
    | .file name d =>
      if filesToSkip.contains name then ([], [])
      else if isTextFile d then
        ([TreeLine.fileLine pre conn name], [⟨fullPath, name, d⟩])
      else
        ([TreeLine.binaryLine pre conn name], [])

/-- Embeds `for index, entry in enumerate(entries)`, accumulating the
appended tree lines and submitted futures in program order. -/
def traverseLoop (recurse : String → String → String → List FS → List TreeLine × List Submission)
    (cfg : Config) (curPath pre rel : String) (total : Nat) :
    Nat → List FS → List TreeLine × List Submission
  | _, [] => ([], [])
  | idx, e :: rest =>
    let a := traverseEntry recurse cfg curPath pre rel total idx e
    let b := traverseLoop recurse cfg curPath pre rel total (idx + 1) rest
    (a.1 ++ b.1, a.2 ++ b.2)

/-- Embeds `traverse(current_path, prefix, relative_path)` on the listed
children of `current_path`.  `fuel` bounds the directory nesting depth
that can be descended into; it is consumed only when entering a
subdirectory, and all theorems below hold for every fuel value, hence
for any fuel exceeding the height of the actual tree. -/
def traverseChildren : Nat → Config → String → String → String → List FS →
    List TreeLine × List Submission
  | 0, _, _, _, _, _ => ([], [])
  | fuel + 1, cfg, curPath, pre, rel, cs =>
    if cfg.includeOnly && !(rel == "") && !(cfg.includedDirs.contains rel) then ([], [])
    else
      let entries := (sortByName cs).filter (keepEntry cfg.alwaysExcludeDirs)
      traverseLoop (fun p pr r l => traverseChildren fuel cfg p pr r l)
        cfg curPath pre rel entries.length 0 entries

/-! ### `process_file` (lines 252-296) -/

/-- The `language_mapping` dictionary. -/
def languageMapping : List (String × String) :=
  [("md", "markdown"), ("py", "python"), ("js", "javascript"), ("ts", "typescript"),
   ("rb", "ruby"), ("go", "go"), ("rs", "rust"), ("php", "php"), ("kt", "kotlin"),
   ("swift", "swift"), ("scala", "scala"), ("lua", "lua"), ("sql", "sql"),
   ("yml", "yaml"), ("yaml", "yaml"), ("ini", "ini")]

/-- Splitting a character list at every occurrence of `c`
(`str.split(c)` / the separator structure of a path). -/
def splitOnCh (c : Char) : List Char → List (List Char)
  | [] => [[]]
  | a :: rest =>
    match splitOnCh c rest with
    | [] => if a = c then [[], []] else [[a]]
    | h :: t => if a = c then [] :: h :: t else (a :: h) :: t

/-- Embeds `os.path.splitext(full_path)[1].lstrip('.').lower()`: the extension
of the path's basename (a suffix starting at the last dot, provided a
non-dot character precedes that dot), with leading dots stripped and
lowercased. -/
def extOf (fullPath : String) : String :=
  let base := (splitOnCh '/' fullPath.data).getLastD fullPath.data
  let dotIdxs := (List.range base.length).filter (fun i => base.getD i ' ' = '.')
  match dotIdxs.getLast? with
  | none => ""
  | some i =>
    if (List.range i).any (fun j => base.getD j ' ' ≠ '.') then
      String.mk (((base.drop i).dropWhile (· = '.')).map Char.toLower)
    else ""

/-- Source: `content.count('\n')`. -/
def countNewlines (s : String) : Nat := s.data.count '\n'

/-- Embeds `process_file(full_path, extra_delimiter)`: on success a header
line with path, size and line count followed by the (possibly
delimited) content; on any exception inside the `try` block, a
header-only line annotated with the error message. -/
def processFile (fullPath : String) (d : FileData) (extraDelimiter : String) : String :=
  match d.readError with
  | some e => "\n==== [ " ++ fullPath ++ " ] ==== SKIPPED (Error: " ++ e ++ ")\n"
  | none =>
    let language := ((languageMapping.lookup (extOf fullPath)).getD "")
    let contentBlock :=
      if extraDelimiter ≠ "" then
        extraDelimiter ++ language ++ "\n" ++ d.content ++ "\n" ++ extraDelimiter
      else d.content
    "\n==== [ " ++ fullPath ++ " | Size: " ++ toString d.size ++ " bytes | Lines: " ++
      toString (countNewlines d.content) ++ " ] ====\n" ++ contentBlock ++ "\n"

/-- The blocks produced for a list of submitted futures, in submission
order (`process_file` returns normally on every input — its internal
`except` converts failures into the error block — so the
`future.result()` collection loop appends one block per future). -/
def collectedBlocks (extraDelimiter : String) (subs : List Submission) : List String :=
  subs.map (fun s => processFile s.fullPath s.data extraDelimiter)

/-- Embeds `concatenate_and_generate_tree(path, ...)`: one traversal produces
the tree text and the `'\n'`-joined concatenated blocks. -/
def concatenateAndGenerateTree (fuel : Nat) (cfg : Config) (path : String) (root : List FS) :
    String × String :=
  let r := traverseChildren fuel cfg path "" "" root
  (treeText r.1, String.intercalate "\n" (collectedBlocks cfg.extraDelimiter r.2))

/-! ### The worker pool (`ThreadPoolExecutor`, lines 375-384)

The pool runs the submitted tasks in some completion order (any
interleaving the scheduler picks); a future's `result()` waits for and
returns the value of its own task.  `completionEvents` lists the
(index, value) pairs in completion order; `futureResult` is
`futures[i].result()`; the collection loop reads the futures in
submission order. -/

def completionEvents (tasks : List String) (schedule : List Nat) : List (Nat × String) :=
  schedule.filterMap (fun i => (tasks.get? i).map (fun t => (i, t)))

def futureResult (events : List (Nat × String)) (i : Nat) : Option String :=
  (events.find? (fun ev => ev.1 == i)).map (·.2)

/-- Embeds `for future in futures: concatenated_output.append(future.result())`:
the futures list is read in submission order, regardless of the
completion order recorded in `schedule`. -/
def collectResults (tasks : List String) (schedule : List Nat) : List String :=
  (List.range tasks.length).filterMap (futureResult (completionEvents tasks schedule))

/-- Embeds `concatenate_and_generate_tree` with the pool's completion order
made explicit. -/
def concatenateWithSchedule (fuel : Nat) (cfg : Config) (path : String) (root : List FS)
    (schedule : List Nat) : String × String :=
  let r := traverseChildren fuel cfg path "" "" root
  (treeText r.1,
   String.intercalate "\n" (collectResults (collectedBlocks cfg.extraDelimiter r.2) schedule))

/-! ### The include-only gate in `main` (lines 479-525) and
`parse_catgitinclude` (lines 155-174) -/

/-- Embeds `parse_catgitinclude(path)`: `none` models `FileNotFoundError`
(logged, zero patterns); otherwise each stripped, non-empty,
non-comment line is compiled (`re.compile(fnmatch.translate(line))`
never raises, so no line is skipped by the inner `except`).  `compile`
is the glob-to-matcher compilation. -/
def pyStrip (s : String) : String :=
  String.mk (((s.data.dropWhile Char.isWhitespace).reverse.dropWhile Char.isWhitespace).reverse)

def startsWithHash (s : String) : Bool :=
  match s.data with
  | c :: _ => c = '#'
  | [] => false

def parseCatgitinclude (compile : String → (String → Bool)) (fileLines : Option (List String)) :
    List (String → Bool) :=
  match fileLines with
  | none => []
  | some lines =>
    lines.filterMap (fun line =>
      let line := pyStrip line
      if line ≠ "" && !(startsWithHash line) then some (compile line) else none)

/-- Embeds `os.walk`: all file paths relative to the root
(`get_all_files` / the walk inside `get_included_files_and_dirs`). -/
def allFilesRel (fuel : Nat) (rel : String) (cs : List FS) : List String :=
  match fuel with
  | 0 => []
  | fuel + 1 =>
    cs.foldr (fun e acc =>
      match e with
      | .file n _ => joinRel rel n :: acc
      | .dir n ch => allFilesRel fuel (joinRel rel n) ch ++ acc) []

/-- The `while dir_path:` ancestor chain of a relative path, plus `'.'`
for the root. -/
def parentPaths (p : String) : List String :=
  let comps := (splitOnCh '/' p.data).map String.mk
  ((List.range (comps.length - 1)).map
    (fun k => String.intercalate "/" (comps.take (k + 1)))) ++ ["."]

/-- Embeds `get_included_files_and_dirs(path, compiled_include_patterns)`
(lines 199-220): the files matching some include pattern, and the
ancestor directories of each such file. -/
def getIncludedFilesAndDirs (fuel : Nat) (pats : List (String → Bool)) (root : List FS) :
    List String × List String :=
  let included := (allFilesRel fuel "" root).filter (fun f => pats.any (fun p => p f))
  (included, included.foldr (fun f acc => parentPaths f ++ acc) [])

/-- The outcome of one invocation: either an abort before traversal
with the printed message, or the produced (tree text, concatenated
content) pair. -/
def RunOutcome := Except String (String × String)

/-- The include-only gate of `main`: when `--include-only` is requested
and `.catgitinclude` support is enabled, the allow-list is parsed
first, and if it yields zero patterns the invocation stops with a
printed message before `concatenate_and_generate_tree` is ever called;
otherwise traversal proceeds with the computed include sets.
(When `includeOnly` is set but `enabled` is false, the source passes
`included_files = included_dirs = None` together with
`include_only=True`, and `traverse` raises `TypeError` on its first
entry — that configuration is outside the claims below, which assume
the gate's enabled branch.) -/
def runMain (fuel : Nat) (cfg : Config) (includeOnly enabled : Bool)
    (catgitincludePath : String) (includeFileLines : Option (List String))
    (compile : String → (String → Bool)) (path : String) (root : List FS) : RunOutcome :=
  if includeOnly && enabled then
    let pats := parseCatgitinclude compile includeFileLines
    if pats.isEmpty then
      Except.error ("No include patterns found in " ++ catgitincludePath ++ ".")
    else
      let sets := getIncludedFilesAndDirs fuel pats root
      Except.ok (concatenateAndGenerateTree fuel
        { cfg with includeOnly := true, includedFiles := sets.1, includedDirs := sets.2 }
        path root)
  else
    Except.ok (concatenateAndGenerateTree fuel
      { cfg with includeOnly := includeOnly, includedFiles := [], includedDirs := [] }
      path root)

/-! ### Auxiliary transformations used by the theorems -/

/-! Deleting every hard-excluded directory (and with it its whole
subtree) from the filesystem, at every level. -/
mutual
def pruneFS (excl : List String) : FS → FS
  | .file n d => .file n d
  | .dir n cs => .dir n (pruneList excl cs)
def pruneList (excl : List String) : List FS → List FS
  | [] => []
  | e :: r =>
    if e.isDir && excl.contains e.name then pruneList excl r
    else pruneFS excl e :: pruneList excl r
end

/-! Applying a data transformation to every file in the tree. -/
mutual
def mapDataFS (f : FileData → FileData) : FS → FS
  | .file n d => .file n (f d)
  | .dir n cs => .dir n (mapDataList f cs)
def mapDataList (f : FileData → FileData) : List FS → List FS
  | [] => []
  | e :: r => mapDataFS f e :: mapDataList f r
end

/-- Marking a file's content read as failing with message `e`
(classification sample, name and path untouched). -/
def setReadError (e : String) (d : FileData) : FileData := { d with readError := some e }

/-! ## Claim C1 — classifier threshold -/

/-- Modelled from the spec's words, for comparison with the source's
`textChars`: membership in
`{0x20..0x7E, 0x07, 0x08, 0x09, 0x0A, 0x0C, 0x0D, 0x1B}`. -/
def specTextByte (b : Nat) : Bool :=
  decide ((0x20 ≤ b ∧ b ≤ 0x7e) ∨ b ∈ ([0x07, 0x08, 0x09, 0x0a, 0x0c, 0x0d, 0x1b] : List Nat))

/-- Modelled from the spec's words: the count of bytes outside the
claim's text-byte set. -/
def specNontextCount (sample : List Nat) : Nat := sample.countP (fun b => !(specTextByte b))

lemma mem_textChars (b : Nat) :
    b ∈ textChars ↔
      ((0x20 ≤ b ∧ b ≤ 0x7e) ∨ b ∈ ([0x07, 0x08, 0x09, 0x0a, 0x0c, 0x0d, 0x1b] : List Nat)) := by
  simp only [textChars, List.mem_append, List.mem_range'_1, List.mem_cons,
    List.mem_singleton, List.not_mem_nil, or_false]
  omega

lemma contains_textChars (b : Nat) : textChars.contains b = specTextByte b := by
  unfold specTextByte
  rw [show textChars.contains b = decide (b ∈ textChars) from List.elem_eq_mem b textChars,
    decide_eq_decide]
  exact mem_textChars b

lemma nontextCharCount_eq_spec (sample : List Nat) :
    nontextCharCount sample = specNontextCount sample := by
  unfold nontextCharCount specNontextCount
  refine List.countP_congr (fun b _ => ?_)
  rw [contains_textChars b]

/-- Claim C1: for every non-empty byte sample, `is_text_file`
classifies it as text iff `100 * (1 - nontext_count/len(sample)) > 70`
for the claim's byte set; in particular a sample whose text-byte ratio
is exactly 70% is not text. -/
theorem c1_classifier_threshold (sample : List Nat) (h : sample ≠ []) :
    (isTextSample sample = true ↔
      (100 : ℚ) * (1 - (specNontextCount sample : ℚ) / (sample.length : ℚ)) > 70)
    ∧ ((100 : ℚ) * (1 - (specNontextCount sample : ℚ) / (sample.length : ℚ)) = 70 →
      isTextSample sample = false) := by
  have hne : sample.isEmpty = false := by
    cases sample with
    | nil => exact absurd rfl h
    | cons a l => rfl
  have hc := nontextCharCount_eq_spec sample
  constructor
  · rw [isTextSample, hne, if_neg (by simp), hc]
    exact decide_eq_true_iff
  · intro heq
    rw [isTextSample, hne, if_neg (by simp), hc]
    simp [heq]

/-- Witness for C1 at the one-byte sample `[0x41]` (`"A"`). -/
theorem c1_classifier_threshold_witness :
    (isTextSample [0x41] = true ↔
      (100 : ℚ) * (1 - (specNontextCount [0x41] : ℚ) / (([0x41] : List Nat).length : ℚ)) > 70)
    ∧ ((100 : ℚ) * (1 - (specNontextCount [0x41] : ℚ) / (([0x41] : List Nat).length : ℚ)) = 70 →
      isTextSample [0x41] = false) :=
  c1_classifier_threshold [0x41] (by decide)

/-! ## Concrete fixtures

Files whose classification avoids rational arithmetic (empty sample =
text, absent sample = unreadable = binary), so concrete traversals
evaluate inside the kernel. -/

def emptyTextData : FileData := { sample := some [], content := "", size := 0, readError := none }

def cfgBase : Config :=
  { ignoredGitFiles := [], catgitPatterns := [], includeTreeView := true,
    markupCatgitignoredFiles := true, displayCatgitignoredFiles := true,
    alwaysExcludeDirs := [], ignoreGitignored := true, displayGitignoredFiles := true,
    includeOnly := false, includedFiles := [], includedDirs := [],
    hideNonexistentGitignored := false, extraDelimiter := "~~~",
    isdirCwd := fun _ => false }

/-! ## Config congruence

`traverse` reads only some of the fields handed to
`concatenate_and_generate_tree`; outputs agree whenever those fields
agree. -/

/-- The fields of `Config` that `traverse` actually reads. -/
structure UsedConfig where
  ignoredGitFiles : List String
  catgitPatterns : List (String → Bool)
  displayCatgitignoredFiles : Bool
  alwaysExcludeDirs : List String
  ignoreGitignored : Bool
  displayGitignoredFiles : Bool
  includeOnly : Bool
  includedFiles : List String
  includedDirs : List String
  isdirCwd : String → Bool

def usedCfg (cfg : Config) : UsedConfig :=
  ⟨cfg.ignoredGitFiles, cfg.catgitPatterns, cfg.displayCatgitignoredFiles,
   cfg.alwaysExcludeDirs, cfg.ignoreGitignored, cfg.displayGitignoredFiles,
   cfg.includeOnly, cfg.includedFiles, cfg.includedDirs, cfg.isdirCwd⟩

lemma traverseEntry_congr (R₁ R₂ : String → String → String → List FS →
      List TreeLine × List Submission)
    (h : ∀ p pr r l, R₁ p pr r l = R₂ p pr r l)
    (cfg₁ cfg₂ : Config) (hc : usedCfg cfg₁ = usedCfg cfg₂)
    (curPath pre rel : String) (total idx : Nat) (e : FS) :
    traverseEntry R₁ cfg₁ curPath pre rel total idx e
      = traverseEntry R₂ cfg₂ curPath pre rel total idx e := by
  cases cfg₁
  cases cfg₂
  simp only [usedCfg, UsedConfig.mk.injEq] at hc
  obtain ⟨h₁, h₂, h₃, h₄, h₅, h₆, h₇, h₈, h₉, h₁₀⟩ := hc
  subst h₁ h₂ h₃ h₄ h₅ h₆ h₇ h₈ h₉ h₁₀
  cases e with
  | file n d => rfl
  | dir n cs => simp only [traverseEntry, h]

lemma traverseLoop_congr (R₁ R₂ : String → String → String → List FS →
      List TreeLine × List Submission)
    (h : ∀ p pr r l, R₁ p pr r l = R₂ p pr r l)
    (cfg₁ cfg₂ : Config) (hc : usedCfg cfg₁ = usedCfg cfg₂)
    (curPath pre rel : String) (total : Nat) :
    ∀ (es : List FS) (idx : Nat),
      traverseLoop R₁ cfg₁ curPath pre rel total idx es
        = traverseLoop R₂ cfg₂ curPath pre rel total idx es := by
  intro es
  induction es with
  | nil => intro idx; rfl
  | cons e rest ih =>
    intro idx
    simp only [traverseLoop, traverseEntry_congr R₁ R₂ h cfg₁ cfg₂ hc, ih]

lemma traverseChildren_usedCfg_congr (cfg₁ cfg₂ : Config) (hc : usedCfg cfg₁ = usedCfg cfg₂) :
    ∀ (fuel : Nat) (curPath pre rel : String) (cs : List FS),
      traverseChildren fuel cfg₁ curPath pre rel cs
        = traverseChildren fuel cfg₂ curPath pre rel cs := by
  intro fuel
  induction fuel with
  | zero => intro _ _ _ _; rfl
  | succ fuel ih =>
    intro curPath pre rel cs
    have hcond : cfg₁.includeOnly = cfg₂.includeOnly := congrArg UsedConfig.includeOnly hc
    have hdirs : cfg₁.includedDirs = cfg₂.includedDirs := congrArg UsedConfig.includedDirs hc
    have hexcl : cfg₁.alwaysExcludeDirs = cfg₂.alwaysExcludeDirs :=
      congrArg UsedConfig.alwaysExcludeDirs hc
    simp only [traverseChildren, hcond, hdirs, hexcl]
    split
    · rfl
    · exact traverseLoop_congr _ _ (fun p pr r l => ih p pr r l) cfg₁ cfg₂ hc _ _ _ _ _ _

/-! ## Claim C9 — empty sample is text -/

/-- Claim C9: a file whose initial read yields zero bytes (empty
sample) is classified as text by `is_text_file`. -/
theorem c9_empty_file_is_text :
    (∀ (content : String) (size : Nat) (readError : Option String),
      isTextFile { sample := some [], content := content, size := size, readError := readError }
        = true)
    ∧ isTextSample [] = true :=
  ⟨fun _ _ _ => rfl, rfl⟩

/-! ## Claim C5 — secondary-ignore matching (directory separator) -/

def cfgC5 : Config := { cfgBase with catgitPatterns := [fun s => s == "d/"] }

/-- Claim C5 evidence: `is_catgit_ignored` appends the trailing
separator according to `os.path.isdir(relative_path)` — the bare
relative path resolved against the process working directory — not
according to the entry's kind under the traversal root.  With the cwd
elsewhere (`isdirCwd ≡ false`), the directory entry `d` is matched as
`"d"`, the pattern `d/` does not fire, and `d` is listed and descended
into; with the cwd at the root (`isdirCwd ≡ true` on `d`), the same
tree and pattern ignore `d`.  This contradicts the code's own comment
("always include a trailing slash for directories") and the claim. -/
theorem c5_trailing_separator_follows_cwd :
    (isCatgitIgnored (fun _ => false) "d" [fun s => s == "d/"] = false)
    ∧ (isCatgitIgnored (fun _ => true) "d" [fun s => s == "d/"] = true)
    ∧ (traverseChildren 2 cfgC5 "/root" "" "" [FS.dir "d" [FS.file "f.txt" emptyTextData]]
        = ([TreeLine.dirLine "" "└──" "d", TreeLine.fileLine "    " "└──" "f.txt"],
           [⟨"/root/d/f.txt", "f.txt", emptyTextData⟩]))
    ∧ (traverseChildren 2 { cfgC5 with isdirCwd := fun _ => true } "/root" "" ""
          [FS.dir "d" [FS.file "f.txt" emptyTextData]]
        = ([TreeLine.catgitIgnoredDirLine "" "└──" "d"], [])) :=
  ⟨rfl, rfl, by decide, by decide⟩

/-- Function `is_catgit_ignored` fires exactly when some pattern matches the
normalized path, and the order of the patterns has no effect on the
outcome. -/
theorem isCatgitIgnored_any_perm (isdirCwd : String → Bool) (relativePath : String)
    (ps qs : List (String → Bool)) (hperm : ps.Perm qs) :
    (isCatgitIgnored isdirCwd relativePath ps = true ↔
      ∃ p ∈ ps, p (if isdirCwd relativePath then relativePath ++ "/" else relativePath) = true)
    ∧ isCatgitIgnored isdirCwd relativePath ps = isCatgitIgnored isdirCwd relativePath qs := by
  constructor
  · simp [isCatgitIgnored, List.any_eq_true]
  · simp only [isCatgitIgnored]
    exact Bool.coe_iff_coe.mp (by simp [List.any_eq_true, hperm.mem_iff])

/-! ## Claim C7 — display and markup toggles -/

def cfgC7 : Config :=
  { cfgBase with
    catgitPatterns := [fun s => s == "debug.log"]
    markupCatgitignoredFiles := false }

/-- Claim C7 evidence: `traverse` never reads
`markup_catgitignored_files` — the marker annotation is emitted
whenever a displayed entry is catgit-ignored, even with the markup
toggle off — so the two toggles are not independent in the code.  The
first conjunct shows the whole traversal is invariant under the markup
toggle; the remaining conjuncts evaluate the failing input
(`display = true`, `markup = false`, ignored file `debug.log`), whose
tree line still carries `# (catgit-ignored)`. -/
theorem c7_markup_toggle_never_read :
    (∀ (fuel : Nat) (cfg : Config) (v : Bool) (curPath pre rel : String) (cs : List FS),
      traverseChildren fuel { cfg with markupCatgitignoredFiles := v } curPath pre rel cs
        = traverseChildren fuel cfg curPath pre rel cs)
    ∧ (traverseChildren 1 cfgC7 "/r" "" "" [FS.file "debug.log" emptyTextData]
        = ([TreeLine.catgitIgnoredFileLine "" "└──" "debug.log"], []))
    ∧ (renderLine (TreeLine.catgitIgnoredFileLine "" "└──" "debug.log")
        = "└── debug.log # (catgit-ignored)\n")
    ∧ (traverseChildren 1 { cfgC7 with markupCatgitignoredFiles := true } "/r" "" ""
          [FS.file "debug.log" emptyTextData]
        = traverseChildren 1 cfgC7 "/r" "" "" [FS.file "debug.log" emptyTextData]) :=
  ⟨fun fuel cfg v curPath pre rel cs =>
     traverseChildren_usedCfg_congr { cfg with markupCatgitignoredFiles := v } cfg rfl
       fuel curPath pre rel cs,
   by decide, rfl, by decide⟩

/-! ## Claim C4 — include-only fail-fast -/

/-- Claim C4: when include-only mode is requested (and `.catgitinclude`
support is enabled, its default), a missing allow-list file or one that
yields zero compiled patterns aborts the invocation with the printed
message, before `concatenate_and_generate_tree` is ever invoked: the
outcome carries no tree text and no content output.  The last conjunct
records that a missing file (`none`) is one of the zero-pattern
cases. -/
theorem c4_include_only_fail_fast (fuel : Nat) (cfg : Config) (includeOnly enabled : Bool)
    (catgitincludePath : String) (includeFileLines : Option (List String))
    (compile : String → (String → Bool)) (path : String) (root : List FS)
    (hOn : includeOnly = true) (hEn : enabled = true)
    (hPats : parseCatgitinclude compile includeFileLines = []) :
    runMain fuel cfg includeOnly enabled catgitincludePath includeFileLines compile path root
      = Except.error ("No include patterns found in " ++ catgitincludePath ++ ".")
    ∧ parseCatgitinclude compile none = [] := by
  subst hOn hEn
  refine ⟨?_, rfl⟩
  simp only [runMain, Bool.and_self, if_true, hPats, List.isEmpty_nil, if_pos]

/-- Witness for C4: a concrete invocation over a non-empty tree with a
missing `.catgitinclude` aborts with the message and produces no
output. -/
theorem c4_include_only_fail_fast_witness :
    runMain 3 cfgBase true true "/repo/.catgitinclude" none (fun _ _ => false) "/repo"
        [FS.file "a.txt" emptyTextData]
      = Except.error ("No include patterns found in " ++ "/repo/.catgitinclude" ++ ".")
    ∧ parseCatgitinclude (fun _ _ => false) none = [] :=
  c4_include_only_fail_fast 3 cfgBase true true "/repo/.catgitinclude" none
    (fun _ _ => false) "/repo" [FS.file "a.txt" emptyTextData] rfl rfl rfl

/-! ## Claim C6 — submission-order joining, determinism -/

lemma completionEvents_cons_some (tasks : List String) (j : Nat) (rest : List Nat)
    (t : String) (hj : tasks.get? j = some t) :
    completionEvents tasks (j :: rest) = (j, t) :: completionEvents tasks rest := by
  simp only [completionEvents, List.filterMap_cons, hj, Option.map_some']

lemma completionEvents_cons_none (tasks : List String) (j : Nat) (rest : List Nat)
    (hj : tasks.get? j = none) :
    completionEvents tasks (j :: rest) = completionEvents tasks rest := by
  simp only [completionEvents, List.filterMap_cons, hj, Option.map_none']

lemma futureResult_cons_self (j : Nat) (t : String) (ev : List (Nat × String)) :
    futureResult ((j, t) :: ev) j = some t := by
  simp [futureResult, List.find?_cons]

lemma futureResult_cons_ne (j : Nat) (t : String) (ev : List (Nat × String)) (i : Nat)
    (h : j ≠ i) :
    futureResult ((j, t) :: ev) i = futureResult ev i := by
  simp [futureResult, List.find?_cons, h]

lemma futureResult_completionEvents (tasks : List String) :
    ∀ (schedule : List Nat) (i : Nat), i ∈ schedule → i < tasks.length →
      futureResult (completionEvents tasks schedule) i = tasks.get? i := by
  intro schedule
  induction schedule with
  | nil => intro i hi; exact absurd hi (List.not_mem_nil i)
  | cons j rest ih =>
    intro i hi hlen
    rcases hj : tasks.get? j with _ | t
    · have hij : i ≠ j := by
        rintro rfl
        rw [List.get?_eq_none] at hj
        omega
      have hi' : i ∈ rest := by
        rcases List.mem_cons.1 hi with h | h
        · exact absurd h hij
        · exact h
      rw [completionEvents_cons_none tasks j rest hj]
      exact ih i hi' hlen
    · rw [completionEvents_cons_some tasks j rest t hj]
      by_cases hij : j = i
      · subst hij
        rw [futureResult_cons_self]
        exact hj.symm
      · have hi' : i ∈ rest := by
          rcases List.mem_cons.1 hi with h | h
          · exact absurd h.symm hij
          · exact h
        rw [futureResult_cons_ne j t _ i hij]
        exact ih i hi' hlen

lemma range_filterMap_get (tasks : List String) :
    (List.range tasks.length).filterMap tasks.get? = tasks := by
  induction tasks with
  | nil => rfl
  | cons a t ih =>
    rw [List.length_cons, List.range_succ_eq_map, List.filterMap_cons]
    have h0 : (a :: t).get? 0 = some a := rfl
    rw [h0, List.filterMap_map]
    have hcomp : ((a :: t).get? ∘ Nat.succ) = t.get? := funext fun i => rfl
    rw [hcomp, ih]

lemma collectResults_of_perm (tasks : List String) (schedule : List Nat)
    (h : schedule.Perm (List.range tasks.length)) :
    collectResults tasks schedule = tasks := by
  unfold collectResults
  rw [List.filterMap_congr (fun i hi =>
    futureResult_completionEvents tasks schedule i (h.mem_iff.2 hi) (List.mem_range.1 hi))]
  exact range_filterMap_get tasks

/-- Claim C6: for any completion order the pool may produce (any
permutation of the submitted task indices), the joined content equals
the blocks in submission order — the deterministic
`concatenate_and_generate_tree` output — and any two runs over the
unchanged tree produce identical tree text and identical content. -/
theorem c6_submission_order_determinism (fuel : Nat) (cfg : Config) (path : String)
    (root : List FS) (s₁ s₂ : List Nat)
    (h₁ : s₁.Perm (List.range
      (collectedBlocks cfg.extraDelimiter (traverseChildren fuel cfg path "" "" root).2).length))
    (h₂ : s₂.Perm (List.range
      (collectedBlocks cfg.extraDelimiter (traverseChildren fuel cfg path "" "" root).2).length)) :
    concatenateWithSchedule fuel cfg path root s₁ = concatenateAndGenerateTree fuel cfg path root
    ∧ concatenateWithSchedule fuel cfg path root s₁
        = concatenateWithSchedule fuel cfg path root s₂ := by
  have e₁ := collectResults_of_perm _ _ h₁
  have e₂ := collectResults_of_perm _ _ h₂
  have key : ∀ s, collectResults
        (collectedBlocks cfg.extraDelimiter (traverseChildren fuel cfg path "" "" root).2) s
        = collectedBlocks cfg.extraDelimiter (traverseChildren fuel cfg path "" "" root).2 →
      concatenateWithSchedule fuel cfg path root s
        = concatenateAndGenerateTree fuel cfg path root := by
    intro s hs
    simp only [concatenateWithSchedule, concatenateAndGenerateTree, hs]
  exact ⟨key s₁ e₁, (key s₁ e₁).trans (key s₂ e₂).symm⟩

/-- Witness for C6: two files, the two possible completion orders. -/
theorem c6_submission_order_determinism_witness :
    concatenateWithSchedule 1 cfgBase "/r"
        [FS.file "a.txt" emptyTextData, FS.file "b.txt" emptyTextData] [1, 0]
      = concatenateAndGenerateTree 1 cfgBase "/r"
        [FS.file "a.txt" emptyTextData, FS.file "b.txt" emptyTextData]
    ∧ concatenateWithSchedule 1 cfgBase "/r"
        [FS.file "a.txt" emptyTextData, FS.file "b.txt" emptyTextData] [1, 0]
      = concatenateWithSchedule 1 cfgBase "/r"
        [FS.file "a.txt" emptyTextData, FS.file "b.txt" emptyTextData] [0, 1] :=
  c6_submission_order_determinism 1 cfgBase "/r"
    [FS.file "a.txt" emptyTextData, FS.file "b.txt" emptyTextData] [1, 0] [0, 1]
    (by decide) (by decide)

/-! ## Claim C3 — content blocks ↔ plain tree entries -/

/-- The names listed in the tree as plain file entries (no `/`, no
`[Binary/Non-text]`, no ignored marker), in order. -/
def plainFileNames (ls : List TreeLine) : List String :=
  ls.filterMap (fun l =>
    match l with
    | .fileLine _ _ n => some n
    | _ => none)

lemma traverseEntry_plain_inv (R : String → String → String → List FS →
      List TreeLine × List Submission)
    (hR : ∀ p pr r l, (R p pr r l).2.map Submission.name = plainFileNames (R p pr r l).1)
    (cfg : Config) (curPath pre rel : String) (total idx : Nat) (e : FS) :
    (traverseEntry R cfg curPath pre rel total idx e).2.map Submission.name
      = plainFileNames (traverseEntry R cfg curPath pre rel total idx e).1 := by
  cases e with
  | file n d =>
    simp only [traverseEntry]
    split
    · rfl
    split
    · split <;> simp [plainFileNames, FS.isDir]
    split
    · split <;> simp [plainFileNames, FS.isDir]
    split
    · rfl
    split <;> simp [plainFileNames, FS.isDir]
  | dir n cs =>
    simp only [traverseEntry]
    split
    · rfl
    split
    · split <;> simp [plainFileNames, FS.isDir]
    split
    · split <;> simp [plainFileNames, FS.isDir]
    simp only [plainFileNames, List.filterMap_cons]
    exact hR _ _ _ _

lemma traverseLoop_plain_inv (R : String → String → String → List FS →
      List TreeLine × List Submission)
    (hR : ∀ p pr r l, (R p pr r l).2.map Submission.name = plainFileNames (R p pr r l).1)
    (cfg : Config) (curPath pre rel : String) (total : Nat) :
    ∀ (es : List FS) (idx : Nat),
      (traverseLoop R cfg curPath pre rel total idx es).2.map Submission.name
        = plainFileNames (traverseLoop R cfg curPath pre rel total idx es).1 := by
  intro es
  induction es with
  | nil => intro idx; rfl
  | cons e rest ih =>
    intro idx
    simp only [traverseLoop, plainFileNames, List.map_append, List.filterMap_append]
    exact congrArg₂ (· ++ ·) (traverseEntry_plain_inv R hR cfg curPath pre rel total idx e)
      (ih (idx + 1))

/-- Claim C3: a file contributes a content block (is submitted to the
pool) exactly when it is listed in the tree as a plain entry; the two
lists even agree element by element, in order. -/
theorem c3_content_iff_plain_entry (fuel : Nat) (cfg : Config) (curPath pre rel : String)
    (cs : List FS) :
    (traverseChildren fuel cfg curPath pre rel cs).2.map Submission.name
      = plainFileNames (traverseChildren fuel cfg curPath pre rel cs).1 := by
  induction fuel generalizing curPath pre rel cs with
  | zero => rfl
  | succ fuel ih =>
    simp only [traverseChildren]
    split
    · rfl
    · exact traverseLoop_plain_inv _ (fun p pr r l => ih p pr r l) cfg curPath pre rel _ _ 0

/-! ## Claim C10 — config-file names silently skipped -/

/-- A tree line that is a plain or binary file listing of one of the
skipped configuration files. -/
def notSkippedFileLine (l : TreeLine) : Bool :=
  match l with
  | .fileLine _ _ n => !(filesToSkip.contains n)
  | .binaryLine _ _ n => !(filesToSkip.contains n)
  | _ => true

lemma traverseEntry_skip_inv (R : String → String → String → List FS →
      List TreeLine × List Submission)
    (hR : ∀ p pr r l, (R p pr r l).2.all (fun s => !(filesToSkip.contains s.name))
      ∧ (R p pr r l).1.all notSkippedFileLine)
    (cfg : Config) (curPath pre rel : String) (total idx : Nat) (e : FS) :
    (traverseEntry R cfg curPath pre rel total idx e).2.all
        (fun s => !(filesToSkip.contains s.name))
      ∧ (traverseEntry R cfg curPath pre rel total idx e).1.all notSkippedFileLine := by
  cases e with
  | file n d =>
    simp only [traverseEntry]
    split
    · exact ⟨rfl, rfl⟩
    split
    · split <;> simp [notSkippedFileLine, FS.isDir]
    split
    · split <;> simp [notSkippedFileLine, FS.isDir]
    split
    · exact ⟨rfl, rfl⟩
    next hskip =>
      split <;> simp_all [notSkippedFileLine, FS.isDir]
  | dir n cs =>
    simp only [traverseEntry]
    split
    · exact ⟨rfl, rfl⟩
    split
    · split <;> simp [notSkippedFileLine, FS.isDir]
    split
    · split <;> simp [notSkippedFileLine, FS.isDir]
    refine ⟨(hR _ _ _ _).1, ?_⟩
    simp only [List.all_cons, notSkippedFileLine, Bool.true_and]
    exact (hR _ _ _ _).2

lemma traverseLoop_skip_inv (R : String → String → String → List FS →
      List TreeLine × List Submission)
    (hR : ∀ p pr r l, (R p pr r l).2.all (fun s => !(filesToSkip.contains s.name))
      ∧ (R p pr r l).1.all notSkippedFileLine)
    (cfg : Config) (curPath pre rel : String) (total : Nat) :
    ∀ (es : List FS) (idx : Nat),
      (traverseLoop R cfg curPath pre rel total idx es).2.all
          (fun s => !(filesToSkip.contains s.name))
        ∧ (traverseLoop R cfg curPath pre rel total idx es).1.all notSkippedFileLine := by
  intro es
  induction es with
  | nil => intro idx; exact ⟨rfl, rfl⟩
  | cons e rest ih =>
    intro idx
    have he := traverseEntry_skip_inv R hR cfg curPath pre rel total idx e
    have hr := ih (idx + 1)
    simp only [traverseLoop, List.all_append]
    exact ⟨by rw [he.1, hr.1]; rfl, by rw [he.2, hr.2]; rfl⟩

/-- Claim C10: every non-directory entry named `.gitignore`,
`.catgitignore` or `.catgitinclude` that reaches the file-processing
branch is silently dropped: no submission carries such a basename and
no plain or `[Binary/Non-text]` tree line lists such a name (entries
displayed with an ignored marker are the only tree mentions those
names can get). -/
theorem c10_config_files_silently_skipped (fuel : Nat) (cfg : Config)
    (curPath pre rel : String) (cs : List FS) :
    (traverseChildren fuel cfg curPath pre rel cs).2.all
        (fun s => !(filesToSkip.contains s.name))
      ∧ (traverseChildren fuel cfg curPath pre rel cs).1.all notSkippedFileLine := by
  induction fuel generalizing curPath pre rel cs with
  | zero => exact ⟨rfl, rfl⟩
  | succ fuel ih =>
    simp only [traverseChildren]
    split
    · exact ⟨rfl, rfl⟩
    · exact traverseLoop_skip_inv _ (fun p pr r l => ih p pr r l) cfg curPath pre rel _ _ 0

/-! ## Claim C8 — per-file read errors are non-fatal -/

lemma mapDataFS_name (f : FileData → FileData) (e : FS) : (mapDataFS f e).name = e.name := by
  cases e <;> rfl

lemma mapDataFS_isDir (f : FileData → FileData) (e : FS) : (mapDataFS f e).isDir = e.isDir := by
  cases e <;> rfl

lemma mapDataList_eq_map (f : FileData → FileData) (cs : List FS) :
    mapDataList f cs = cs.map (mapDataFS f) := by
  induction cs with
  | nil => rfl
  | cons e r ih => simp only [mapDataList, List.map_cons, ih]

lemma orderedInsert_map_namePres (g : FS → FS) (hg : ∀ e, (g e).name = e.name) (a : FS) :
    ∀ l : List FS,
      List.orderedInsert nameLe (g a) (l.map g) = (List.orderedInsert nameLe a l).map g := by
  intro l
  induction l with
  | nil => rfl
  | cons b t ih =>
    have hrel : nameLe (g a) (g b) ↔ nameLe a b := by unfold nameLe; rw [hg, hg]
    by_cases h : nameLe a b
    · simp only [List.map_cons, List.orderedInsert, if_pos (hrel.2 h), if_pos h, List.map_cons]
    · simp only [List.map_cons, List.orderedInsert, if_neg (fun hh => h (hrel.1 hh)), if_neg h,
        List.map_cons, ih]

lemma insertionSort_map_namePres (g : FS → FS) (hg : ∀ e, (g e).name = e.name) :
    ∀ l : List FS,
      List.insertionSort nameLe (l.map g) = (List.insertionSort nameLe l).map g := by
  intro l
  induction l with
  | nil => rfl
  | cons a t ih =>
    simp only [List.map_cons, List.insertionSort, ih, orderedInsert_map_namePres g hg]

lemma keepEntry_mapDataFS (excl : List String) (f : FileData → FileData) (e : FS) :
    keepEntry excl (mapDataFS f e) = keepEntry excl e := by
  cases e <;> rfl

lemma filter_keep_map_mapDataFS (excl : List String) (f : FileData → FileData) (l : List FS) :
    (l.map (mapDataFS f)).filter (keepEntry excl)
      = (l.filter (keepEntry excl)).map (mapDataFS f) := by
  rw [List.filter_map]
  exact congrArg _ (List.filter_congr (fun e _ => keepEntry_mapDataFS excl f e))

lemma isTextFile_setReadError (err : String) (d : FileData) :
    isTextFile (setReadError err d) = isTextFile d := rfl

/-- A submitted future whose worker will hit the read failure `err`. -/
def subSetErr (err : String) (s : Submission) : Submission :=
  { s with data := setReadError err s.data }

lemma traverseEntry_setReadError (err : String)
    (R : String → String → String → List FS → List TreeLine × List Submission)
    (hR : ∀ p pr r l, R p pr r (mapDataList (setReadError err) l)
      = ((R p pr r l).1, (R p pr r l).2.map (subSetErr err)))
    (cfg : Config) (curPath pre rel : String) (total idx : Nat) (e : FS) :
    traverseEntry R cfg curPath pre rel total idx (mapDataFS (setReadError err) e)
      = ((traverseEntry R cfg curPath pre rel total idx e).1,
         (traverseEntry R cfg curPath pre rel total idx e).2.map (subSetErr err)) := by
  cases e with
  | file n d =>
    simp only [traverseEntry, mapDataFS, FS.name, FS.isDir]
    split
    · rfl
    split
    · split <;> rfl
    split
    · split <;> rfl
    split
    · rfl
    rw [isTextFile_setReadError]
    split <;> rfl
  | dir n cs =>
    simp only [traverseEntry, mapDataFS, FS.name, FS.isDir]
    split
    · rfl
    split
    · split <;> rfl
    split
    · split <;> rfl
    rw [hR]

lemma traverseLoop_setReadError (err : String)
    (R : String → String → String → List FS → List TreeLine × List Submission)
    (hR : ∀ p pr r l, R p pr r (mapDataList (setReadError err) l)
      = ((R p pr r l).1, (R p pr r l).2.map (subSetErr err)))
    (cfg : Config) (curPath pre rel : String) (total : Nat) :
    ∀ (es : List FS) (idx : Nat),
      traverseLoop R cfg curPath pre rel total idx (es.map (mapDataFS (setReadError err)))
        = ((traverseLoop R cfg curPath pre rel total idx es).1,
           (traverseLoop R cfg curPath pre rel total idx es).2.map (subSetErr err)) := by
  intro es
  induction es with
  | nil => intro idx; rfl
  | cons e rest ih =>
    intro idx
    simp only [List.map_cons, traverseLoop,
      traverseEntry_setReadError err R hR cfg curPath pre rel total idx e, ih (idx + 1),
      List.map_append]

lemma traverseChildren_setReadError (err : String) :
    ∀ (fuel : Nat) (cfg : Config) (curPath pre rel : String) (cs : List FS),
      traverseChildren fuel cfg curPath pre rel (mapDataList (setReadError err) cs)
        = ((traverseChildren fuel cfg curPath pre rel cs).1,
           (traverseChildren fuel cfg curPath pre rel cs).2.map (subSetErr err)) := by
  intro fuel
  induction fuel with
  | zero => intro _ _ _ _ _; rfl
  | succ fuel ih =>
    intro cfg curPath pre rel cs
    simp only [traverseChildren]
    split
    · rfl
    rw [mapDataList_eq_map, sortByName,
      insertionSort_map_namePres _ (mapDataFS_name (setReadError err)) cs]
    rw [show List.insertionSort nameLe cs = sortByName cs from rfl]
    rw [filter_keep_map_mapDataFS, List.length_map]
    exact traverseLoop_setReadError err _ (fun p pr r l => ih cfg p pr r l) cfg curPath pre rel
      _ _ 0

/-- Claim C8: a read failure inside `process_file` is converted into a
header-only error block (first conjunct); each submitted future
contributes exactly its own block in place, so one file's failure
leaves every other file's block intact (second conjunct); and marking
any set of files' reads as failing changes neither the tree text nor
which files are submitted under which paths (third conjunct — the
failing file is still listed normally). -/
theorem c8_read_errors_nonfatal :
    (∀ (fullPath : String) (sample : Option (List Nat)) (content : String) (size : Nat)
        (err delim : String),
      processFile fullPath
          { sample := sample, content := content, size := size, readError := some err } delim
        = "\n==== [ " ++ fullPath ++ " ] ==== SKIPPED (Error: " ++ err ++ ")\n")
    ∧ (∀ (delim : String) (before after : List Submission) (s : Submission),
      collectedBlocks delim (before ++ s :: after)
        = collectedBlocks delim before
            ++ processFile s.fullPath s.data delim :: collectedBlocks delim after)
    ∧ (∀ (err : String) (fuel : Nat) (cfg : Config) (curPath pre rel : String) (cs : List FS),
      (traverseChildren fuel cfg curPath pre rel (mapDataList (setReadError err) cs)).1
          = (traverseChildren fuel cfg curPath pre rel cs).1
        ∧ (traverseChildren fuel cfg curPath pre rel (mapDataList (setReadError err) cs)).2
          = (traverseChildren fuel cfg curPath pre rel cs).2.map (subSetErr err)) :=
  ⟨fun _ _ _ _ _ _ => rfl,
   fun delim before after s => by simp [collectedBlocks],
   fun err fuel cfg curPath pre rel cs => by rw [traverseChildren_setReadError err]; exact ⟨rfl, rfl⟩⟩

/-! ## Claim C2 — hard-excluded directories are pruned

Order-theoretic facts about the name comparison, letting the
`sorted(...)`+filter step commute with deleting excluded directories
from the tree. -/

lemma strLeb_total : ∀ x y : List Char, strLeb x y = true ∨ strLeb y x = true := by
  intro x
  induction x with
  | nil => intro y; exact Or.inl rfl
  | cons a as ih =>
    intro y
    cases y with
    | nil => exact Or.inr rfl
    | cons b bs =>
      by_cases h₁ : a.toNat < b.toNat
      · left; simp [strLeb, h₁]
      · by_cases h₂ : b.toNat < a.toNat
        · right; simp [strLeb, h₂]
        · rcases ih bs with h | h
          · left; simp [strLeb, h₁, h₂, h]
          · right; simp [strLeb, h₁, h₂, h]

lemma strLeb_trans : ∀ x y z : List Char,
    strLeb x y = true → strLeb y z = true → strLeb x z = true := by
  intro x
  induction x with
  | nil => intro y z _ _; rfl
  | cons a as ih =>
    intro y z hxy hyz
    cases y with
    | nil => simp [strLeb] at hxy
    | cons b bs =>
      cases z with
      | nil => simp [strLeb] at hyz
      | cons c cs =>
        by_cases hab : a.toNat < b.toNat
        · by_cases hbc : b.toNat < c.toNat
          · simp [strLeb, show a.toNat < c.toNat from by omega]
          · by_cases hcb : c.toNat < b.toNat
            · simp [strLeb, hbc, hcb] at hyz
            · simp [strLeb, show a.toNat < c.toNat from by omega]
        · by_cases hba : b.toNat < a.toNat
          · simp [strLeb, hab, hba] at hxy
          · by_cases hbc : b.toNat < c.toNat
            · simp [strLeb, show a.toNat < c.toNat from by omega]
            · by_cases hcb : c.toNat < b.toNat
              · simp [strLeb, hbc, hcb] at hyz
              · simp only [strLeb, hab, hba, if_neg, if_false] at hxy
                simp only [strLeb, hbc, hcb, if_neg, if_false] at hyz
                simp only [strLeb, show ¬(a.toNat < c.toNat) from by omega,
                  show ¬(c.toNat < a.toNat) from by omega, if_neg, if_false]
                exact ih bs cs hxy hyz

instance : IsTotal FS nameLe := ⟨fun a b => strLeb_total a.name.data b.name.data⟩

instance : IsTrans FS nameLe :=
  ⟨fun a b c => strLeb_trans a.name.data b.name.data c.name.data⟩

lemma orderedInsert_of_forall_le (a : FS) (m : List FS) (h : ∀ x ∈ m, nameLe a x) :
    List.orderedInsert nameLe a m = a :: m := by
  cases m with
  | nil => rfl
  | cons c t => rw [List.orderedInsert, if_pos (h c (List.mem_cons_self c t))]

lemma filter_orderedInsert (p : FS → Bool) (a : FS) :
    ∀ l : List FS, List.Sorted nameLe l →
      (List.orderedInsert nameLe a l).filter p
        = if p a then List.orderedInsert nameLe a (l.filter p) else l.filter p := by
  intro l
  induction l with
  | nil =>
    intro _
    cases hpa : p a <;> simp [List.orderedInsert, List.filter, hpa]
  | cons b t ih =>
    intro hl
    have hbt : ∀ x ∈ t, nameLe b x := (List.pairwise_cons.1 hl).1
    have ht : List.Sorted nameLe t := (List.pairwise_cons.1 hl).2
    by_cases hab : nameLe a b
    · rw [List.orderedInsert, if_pos hab]
      cases hpa : p a with
      | false => simp [List.filter_cons, hpa]
      | true =>
        have hall : ∀ x ∈ (b :: t).filter p, nameLe a x := by
          intro x hx
          rcases List.mem_filter.1 hx with ⟨hx', _⟩
          rcases List.mem_cons.1 hx' with rfl | hx''
          · exact hab
          · exact strLeb_trans _ _ _ hab (hbt x hx'')
        rw [List.filter_cons_of_pos hpa, if_pos rfl,
          orderedInsert_of_forall_le a _ hall]
    · rw [List.orderedInsert, if_neg hab]
      cases hpb : p b with
      | true =>
        rw [List.filter_cons_of_pos hpb, List.filter_cons_of_pos hpb, ih ht]
        cases hpa : p a with
        | false => simp
        | true =>
          simp only [if_pos trivial]
          rw [List.orderedInsert, if_neg hab]
      | false =>
        rw [List.filter_cons_of_neg (by simp [hpb]), List.filter_cons_of_neg (by simp [hpb]),
          ih ht]

lemma filter_insertionSort (p : FS → Bool) :
    ∀ l : List FS,
      (List.insertionSort nameLe l).filter p = List.insertionSort nameLe (l.filter p) := by
  intro l
  induction l with
  | nil => rfl
  | cons a t ih =>
    rw [List.insertionSort,
      filter_orderedInsert p a _ (List.sorted_insertionSort nameLe t), ih]
    cases hpa : p a with
    | true =>
      rw [List.filter_cons_of_pos hpa, List.insertionSort, if_pos rfl]
    | false =>
      rw [List.filter_cons_of_neg (by simp [hpa]), if_neg (by simp [hpa])]

lemma pruneFS_name (excl : List String) (e : FS) : (pruneFS excl e).name = e.name := by
  cases e <;> rfl

lemma pruneList_eq_filter_map (excl : List String) :
    ∀ cs : List FS,
      pruneList excl cs = (cs.filter (keepEntry excl)).map (pruneFS excl) := by
  intro cs
  induction cs with
  | nil => rfl
  | cons e r ih =>
    rw [pruneList]
    cases hk : (e.isDir && excl.contains e.name) with
    | true =>
      rw [if_pos rfl, List.filter_cons_of_neg (by simp only [keepEntry, Bool.not_eq_true', hk]; simp), ih]
    | false =>
      rw [if_neg (by simp), List.filter_cons_of_pos (by simp only [keepEntry, Bool.not_eq_true']; exact hk),
        List.map_cons, ih]

lemma keepEntry_pruneFS (excl : List String) (e : FS) :
    keepEntry excl (pruneFS excl e) = keepEntry excl e := by
  cases e <;> rfl

lemma filter_keep_map_pruneFS (excl : List String) (l : List FS) :
    (l.map (pruneFS excl)).filter (keepEntry excl)
      = (l.filter (keepEntry excl)).map (pruneFS excl) := by
  rw [List.filter_map]
  exact congrArg _ (List.filter_congr (fun e _ => keepEntry_pruneFS excl e))

/-- The sorted-and-filtered entry list of a pruned directory is the
pruned image of the original sorted-and-filtered entry list. -/
lemma entries_pruneList (excl : List String) (cs : List FS) :
    (sortByName (pruneList excl cs)).filter (keepEntry excl)
      = ((sortByName cs).filter (keepEntry excl)).map (pruneFS excl) := by
  rw [pruneList_eq_filter_map, sortByName,
    insertionSort_map_namePres _ (pruneFS_name excl),
    filter_keep_map_pruneFS, sortByName, filter_insertionSort, filter_insertionSort,
    List.filter_filter]
  have : ∀ e ∈ cs, (keepEntry excl e && keepEntry excl e) = keepEntry excl e := by
    intro e _; cases keepEntry excl e <;> rfl
  rw [List.filter_congr this]

lemma traverseEntry_prune (excl : List String)
    (R : String → String → String → List FS → List TreeLine × List Submission)
    (hR : ∀ p pr r l, R p pr r (pruneList excl l) = R p pr r l)
    (cfg : Config) (curPath pre rel : String) (total idx : Nat) (e : FS) :
    traverseEntry R cfg curPath pre rel total idx (pruneFS excl e)
      = traverseEntry R cfg curPath pre rel total idx e := by
  cases e with
  | file n d => rfl
  | dir n cs =>
    simp only [traverseEntry, pruneFS, FS.name, FS.isDir]
    rw [hR]

lemma traverseLoop_prune (excl : List String)
    (R : String → String → String → List FS → List TreeLine × List Submission)
    (hR : ∀ p pr r l, R p pr r (pruneList excl l) = R p pr r l)
    (cfg : Config) (curPath pre rel : String) (total : Nat) :
    ∀ (es : List FS) (idx : Nat),
      traverseLoop R cfg curPath pre rel total idx (es.map (pruneFS excl))
        = traverseLoop R cfg curPath pre rel total idx es := by
  intro es
  induction es with
  | nil => intro idx; rfl
  | cons e rest ih =>
    intro idx
    simp only [List.map_cons, traverseLoop,
      traverseEntry_prune excl R hR cfg curPath pre rel total idx e, ih (idx + 1)]

/-- Claim C2: deleting every hard-excluded directory (with its whole
subtree) from the filesystem leaves both outputs of the traversal
unchanged, for every fuel, configuration, prefix and path: the
excluded directories and all their descendants contribute nothing to
the tree text or the submissions, and are never descended into. -/
theorem c2_hard_excluded_dirs_pruned (fuel : Nat) (cfg : Config) (curPath pre rel : String)
    (cs : List FS) :
    traverseChildren fuel cfg curPath pre rel (pruneList cfg.alwaysExcludeDirs cs)
      = traverseChildren fuel cfg curPath pre rel cs := by
  induction fuel generalizing curPath pre rel cs with
  | zero => rfl
  | succ fuel ih =>
    simp only [traverseChildren]
    split
    · rfl
    rw [entries_pruneList, List.length_map]
    exact traverseLoop_prune cfg.alwaysExcludeDirs _ (fun p pr r l => ih p pr r l)
      cfg curPath pre rel _ _ 0

end Catgit
